import Mathlib

/-!
Shallow embedding of the OSRM client (package `osrm`, measure/osrm client.go)
of the nextmv SDK, together with theorems settling the specification claims
about it.

Modelling conventions:
* Go `float64` values are modelled as exact rationals (`Rat`).  The client
  performs no floating-point arithmetic on coordinates or matrix entries --
  it only copies them, zero-fills, formats them and compares against `0` and
  `1.0` -- so `Rat` is a faithful carrier for every property proved here.
* `measure.Point` is `[]float64`, modelled as `List Rat`; a "missing" point is
  the empty list.
* Fallible Go code (panics from out-of-range indexing, `error` returns) is
  modelled with `Option`/`Except`; `none` (or a dedicated `panic` constructor)
  marks a Go runtime panic.
* External collaborators that are not part of this repository (the HTTP
  transport, `net/url` resolution, `crypto/sha1`, `encoding/json`, the
  go-polyline codec) are passed in as explicit function parameters, exactly as
  the specification treats them (pluggable capabilities).
-/

namespace Osrm

/-- Carrier for Go `float64` values (see module docstring). -/
abbrev F := Rat

/-- `measure.Point` (`[]float64`): a coordinate pair, possibly missing. -/
abbrev MPoint := List F

/-- A `[][]float64` matrix. -/
abbrev Mat := List (List F)

/-- Left-pad a natural number to six digits, for the fractional part of
Go's `%f` formatting. -/
def pad6 (n : Nat) : String :=
  let s := toString n
  String.mk (List.replicate (6 - s.length) '0') ++ s

/-- Models Go `fmt.Sprintf` with verb `%f` (fixed-point, six fractional
digits) on a `float64` value: sign, integer part, `.`, six rounded digits.
`scaled` is `floor (|x| * 10^6 + 1/2)` computed on the numerator and
denominator, so that it evaluates by kernel-level natural arithmetic.  All
literals appearing in the client are exact at six decimals, so rounding is
the identity on them. -/
def fmtF (x : F) : String :=
  let sign := if x < 0 then "-" else ""
  let scaled : Nat := (2 * x.num.natAbs * 1000000 + x.den) / (2 * x.den)
  sign ++ toString (scaled / 1000000) ++ "." ++ pad6 (scaled % 1000000)

/-- `var unroutablePoint = measure.Point{-143.292892, 37.683603}` (written
as exact rationals). -/
def unroutablePoint : MPoint := [mkRat (-143292892) 1000000, mkRat 37683603 1000000]

/-- `handleUnroutablePoints`: sets nil values to an unroutable point.  A point
is kept exactly when its length is 2; anything else is replaced by the
out-of-service sentinel. -/
def handleUnroutablePoints (inp : List MPoint) : List MPoint :=
  inp.map (fun point => if point.length = 2 then point else unroutablePoint)

/-- Formats one (already handled) point as `"%f,%f"`.  After
`handleUnroutablePoints` every point has length 2, so the defaults are never
used. -/
def fmtMPoint (p : MPoint) : String :=
  fmtF (p.getD 0 0) ++ "," ++ fmtF (p.getD 1 0)

/-- `pointsParameters`: one `"%f,%f"` string per input point, with unroutable
points substituted first. -/
def pointsParameters (points : List MPoint) : List String :=
  (handleUnroutablePoints points).map fmtMPoint

/-- `pointsParameter`: the semicolon-joined coordinate list. -/
def pointsParameter (points : List MPoint) : String :=
  String.intercalate ";" (pointsParameters points)

/-- `getPath`: resolves the coordinate list against `/endpoint/v1/driving/`.
`url.Parse`/`ResolveReference` on the relative reference produced by
`pointsParameter` is plain concatenation and cannot fail on those strings, so
the dead error branch is dropped. -/
def getPath (endpoint : String) (pp : String) : String :=
  "/" ++ endpoint ++ "/v1/driving/" ++ pp

/-- `chunkBy`: splits a slice into chunks of at most `chunkSize`.  The Go
loop runs while `chunkSize < len(items)`; it does not terminate for
`chunkSize = 0` (never reached: `maxTableSize ≥ 1` is enforced), so the model
additionally stops there. -/
def chunkBy (items : List α) (chunkSize : Nat) : List (List α) :=
  if _h : 0 < chunkSize ∧ chunkSize < items.length then
    items.take chunkSize :: chunkBy (items.drop chunkSize) chunkSize
  else [items]
termination_by items.length
decreasing_by
  simp only [List.length_drop]
  omega

/-- The mutable configuration fields of `client` (the transport, host and
cache are modelled separately, as capabilities). -/
structure ClientCfg where
  snapRadius : Int := 0
  scaleFactor : F := 1
  maxTableSize : Int := 100
  removeEmpty : Bool := false
deriving DecidableEq

/-- `tableConfig`: per-call table options. -/
structure TableCfg where
  withDistance : Bool := false
  withDuration : Bool := false
  parallelRuns : Nat := 16
  withApproachCurb : Bool := false
  withExclude : List String := []
deriving DecidableEq

/-- `request`: a planned block request with its stitching indices. -/
structure Request where
  path : String
  row : Nat
  column : Nat
deriving DecidableEq

/-- The requested annotations: duration and/or distance, both when neither
was explicitly requested (in that appending order). -/
def annotationsOf (cfg : TableCfg) : List String :=
  let isDefault := !cfg.withDistance && !cfg.withDuration
  (if isDefault || cfg.withDuration then ["duration"] else []) ++
  (if isDefault || cfg.withDistance then ["distance"] else [])

/-- The query path of one block-pair request of `tableRequests`: coordinate
list (row block then column block), annotations, optional curb approaches,
exclusion list, scale factor and snap radius, in the order the Go code
appends them.  The `sources`/`destinations` suffix is added by
`tableRequests` itself. -/
def requestPath (c : ClientCfg) (cfg : TableCfg) (chunk1 chunk2 : List (F × F)) : String :=
  let resultingChunk := chunk1 ++ chunk2
  let pointsStr :=
    String.intercalate ";" (resultingChunk.map (fun p => fmtF p.1 ++ "," ++ fmtF p.2))
  let path := getPath "table" pointsStr
  let annotations := annotationsOf cfg
  let path :=
    if annotations.length ≥ 1 then
      path ++ "?annotations=" ++ String.intercalate "," annotations
    else path
  let path :=
    if cfg.withApproachCurb then
      path ++ "&approaches=" ++
        String.intercalate ";" (List.replicate resultingChunk.length "curb")
    else path
  let path :=
    if cfg.withExclude.length > 0 then
      path ++ "&exclude=" ++ String.intercalate "," cfg.withExclude
    else path
  let path :=
    if c.scaleFactor ≠ 1 then path ++ "&scale_factor=" ++ fmtF c.scaleFactor
    else path
  if c.snapRadius > 0 then
    path ++ "&radiuses=" ++
      String.intercalate ";" (List.replicate resultingChunk.length (toString c.snapRadius))
  else path

/-- The `convertedPoints` step of `tableRequests`: handles unroutable
points and turns each `[]float64` into the coordinate pair
`(point[0], point[1])` (after handling, every point has length 2). -/
def convertPoints (points : List MPoint) : List (F × F) :=
  (handleUnroutablePoints points).map (fun p => ((p.getD 0 0 : F), (p.getD 1 0 : F)))

/-- `tableRequests`: converts the (unroutable-handled) points to pairs,
chunks them by `maxTableSize`, and plans one request per ordered pair of
chunks, with `sources` covering the row-block prefix and `destinations` the
column-block suffix of the concatenated coordinate list. -/
def tableRequests (c : ClientCfg) (cfg : TableCfg) (points : List MPoint) : List Request :=
  (chunkBy (convertPoints points) c.maxTableSize.toNat).enum.flatMap (fun p1 =>
    (chunkBy (convertPoints points) c.maxTableSize.toNat).enum.map (fun p2 =>
      let indices := (List.range (p1.2.length + p2.2.length)).map toString
      { row := p1.1
        column := p2.1
        path := requestPath c cfg p1.2 p2.2
          ++ "&sources=" ++ String.intercalate ";" (indices.take p1.2.length)
          ++ "&destinations=" ++ String.intercalate ";" (indices.drop p1.2.length) }))

/-- `tableResponse`: the decoded response of one block request, stamped with
its (row, column) block indices. -/
structure TableResponse where
  code : String := ""
  message : String := ""
  distances : Mat := []
  durations : Mat := []
  row : Nat := 0
  column : Nat := 0
deriving DecidableEq

/-- The reflexive ordering induced by the strict `sort.Slice` comparator of
`mergeRequests`: by row, then by column. -/
def respLE (a b : TableResponse) : Prop :=
  a.row < b.row ∨ (a.row = b.row ∧ a.column ≤ b.column)

instance : DecidableRel respLE := fun a b => by
  unfold respLE; infer_instance

/-- Strict lexicographic order on the (row, column) stitching keys. -/
def respLT (a b : TableResponse) : Prop :=
  a.row < b.row ∨ (a.row = b.row ∧ a.column < b.column)

/-- The sort performed at the head of `mergeRequests` (`sort.Slice` with the
row-then-column comparator; with pairwise-distinct keys any sorting
algorithm produces this unique ordering). -/
def sortResponses (rs : List TableResponse) : List TableResponse :=
  rs.insertionSort respLE

/-- Mutable bookkeeping of the stitching walk in `mergeRequests`. -/
structure MergeState where
  merged : TableResponse
  subRow : Nat
  disRows : Nat
  disIndex : Nat
  durRows : Nat
  durIndex : Nat

/-- `merged.Distances[base+i] = append(merged.Distances[base+i], sub[i]...)`
for every row `i` of `sub`; `none` models the Go index-out-of-range panic. -/
def appendColsAt (m : Mat) (base : Nat) (sub : Mat) : Option Mat :=
  sub.enum.foldlM (fun acc q =>
    match acc.get? (base + q.1) with
    | none => none
    | some rowv => some (acc.set (base + q.1) (rowv ++ q.2))) m

/-- One step of the stitching walk: on a row change, append the block's rows
below; on an unchanged row, append its columns to the current row band. -/
def mergeStep (st : MergeState) (res : TableResponse) : Option MergeState :=
  if res.row ≠ st.subRow then
    some { st with
      subRow := st.subRow + 1
      disIndex := st.disIndex + st.disRows
      durIndex := st.durIndex + st.durRows
      merged := { st.merged with
        distances := st.merged.distances ++ res.distances
        durations := st.merged.durations ++ res.durations } }
  else
    match appendColsAt st.merged.distances st.disIndex res.distances with
    | none => none
    | some d =>
      match appendColsAt st.merged.durations st.durIndex res.durations with
      | none => none
      | some u =>
        some { st with
          merged := { st.merged with distances := d, durations := u }
          disRows := res.distances.length
          durRows := res.durations.length }

/-- `mergeRequests`: sorts the responses by (row, column) and stitches the
submatrices; `none` models the Go panics (`responses[0]` on an empty slice,
out-of-range row writes). -/
def mergeRequests (responses : List TableResponse) : Option TableResponse :=
  match sortResponses responses with
  | [] => none
  | first :: rest =>
    (rest.foldlM mergeStep
      { merged := first, subRow := 0, disRows := 0, disIndex := 0
        durRows := 0, durIndex := 0 }).map (·.merged)

/-- The zero-point test of `deflateZeroes`:
`len(point) == 0 || (point[0] == 0 && point[1] == 0)` with Go's left-to-right
short-circuit evaluation; `none` models the index-out-of-range panic
(reached exactly when the point has length 1 and its only entry is 0). -/
def isDroppedPoint (p : MPoint) : Option Bool :=
  if p.length = 0 then some true
  else
    match p[0]? with
    | none => none
    | some a =>
      if a = 0 then
        match p[1]? with
        | none => none
        | some b => some (b = 0)
      else some false

/-- `deflateZeroes`: drops missing/zero points, collecting the survivors and
their original indices (the Go loop appends; modelled as the literal
enumerated fold). -/
def deflateZeroes (points : List MPoint) : Option (List MPoint × List Nat) :=
  points.enum.foldlM (fun acc p =>
    match isDroppedPoint p.2 with
    | none => none
    | some true => some acc
    | some false => some (acc.1 ++ [p.2], acc.2 ++ [p.1])) ([], [])

/-- Recursive reformulation of `deflateZeroes` used in proofs (`i` is the
index of the first point of the remaining suffix). -/
def deflateRec (i : Nat) (points : List MPoint) : Option (List MPoint × List Nat) :=
  match points with
  | [] => some ([], [])
  | p :: rest =>
    match isDroppedPoint p with
    | none => none
    | some true => deflateRec (i + 1) rest
    | some false =>
      match deflateRec (i + 1) rest with
      | none => none
      | some (d, idx) => some (p :: d, i :: idx)

/-- `matrix[i][j]` as a partial read. -/
def matGet? (m : Mat) (i j : Nat) : Option F :=
  match m[i]? with
  | none => none
  | some rowv => rowv[j]?

/-- `matrix[i][j] = v` as a partial write (`none`: Go panic). -/
def matSet? (m : Mat) (i j : Nat) (v : F) : Option Mat :=
  match m[i]? with
  | none => none
  | some rowv =>
    if j < rowv.length then some (m.set i (rowv.set j v)) else none

/-- The inner loop of `inflateZeroes` for one surviving row: copies
`matrix[i][q.1]` into the accumulated full matrix at `(oi, q.2)` for every
enumerated index pair `q`. -/
def inflateRow (matrix : Mat) (i oi : Nat) (qs : List (Nat × Nat)) (acc : Mat) : Option Mat :=
  qs.foldlM (fun acc2 q =>
    match matGet? matrix i q.1 with
    | none => none
    | some v => matSet? acc2 oi q.2 v) acc

/-- `inflateZeroes`: allocates a `length × length` zero matrix and copies
`matrix[i][j]` to cell `(indices[i], indices[j])` for every pair of
enumerated indices. -/
def inflateZeroes (matrix : Mat) (indices : List Nat) (length : Nat) : Option Mat :=
  indices.enum.foldlM (fun acc p => inflateRow matrix p.1 p.2 indices.enum acc)
    (List.replicate length (List.replicate length (0 : F)))

/-- Total cell read used in statements (out-of-range reads default to 0). -/
def matCell (m : Mat) (i j : Nat) : F :=
  (m.getD i []).getD j 0

/-- `m` is an `n × n` matrix. -/
def IsSquare (m : Mat) (n : Nat) : Prop :=
  m.length = n ∧ ∀ rowv ∈ m, rowv.length = n

instance (m : Mat) (n : Nat) : Decidable (IsSquare m n) := by
  unfold IsSquare
  infer_instance

/-- Modelled from the spec: the `osrm.Error` type (`NewError`,
`IsInputError`) lives in a file of this package that is not under `src/`;
the spec's `ClassifiedError` is "an error plus a boolean marking it as
caused by invalid caller input".  `generic` stands for every other Go
`error` value (JSON decode errors, transport errors, non-Ok code errors),
for which the `errs[0].(Error)` type assertion fails. -/
inductive GoError where
  | osrm (msg : String) (input : Bool)
  | generic (msg : String)
deriving DecidableEq

/-- `err.Error()`. -/
def GoError.text : GoError → String
  | .osrm m _ => m
  | .generic m => m

/-- The combined `e, ok := err.(Error); ok && e.IsInputError()` test. -/
def GoError.isOsrmInput : GoError → Bool
  | .osrm _ input => input
  | .generic _ => false

/-- The error-aggregation block at the end of `client.Table`: when at least
one block failed, builds `errMsgs` (note: `make([]string, len(errs))`
followed by `append`, so the joined message starts with one empty entry per
error) and classifies the aggregate by the loop
`for _, err := range errs do e, ok := errs[0].(Error); ...` -- the loop
inspects `errs[0]` at every iteration.  Returns `none` when there were no
errors. -/
def aggregateTableErrors (errs : List GoError) : Option GoError :=
  if errs.length > 0 then
    let hasUserErrs := errs.foldl
      (fun acc _ => acc || (errs.headD (.generic "")).isOsrmInput) false
    let errMsgs := List.replicate errs.length "" ++ errs.map GoError.text
    some (.osrm (String.intercalate "\n" errMsgs) hasUserErrs)
  else none

/-- Outcome of the front of `client.Table`, up to request planning. -/
inductive TablePrep where
  | emptyErr
  | panic
  | proceed (points : List MPoint) (deflatedIndices : List Nat)
deriving DecidableEq

/-- The front of `client.Table`: empty-input check, then (when
`removeEmpty`) the `deflateZeroes` filtering, whose length-1 zero-point
panic propagates to the whole call. -/
def tableCallPrep (removeEmpty : Bool) (points : List MPoint) : TablePrep :=
  if points.length = 0 then .emptyErr
  else if removeEmpty then
    match deflateZeroes points with
    | none => .panic
    | some (d, idx) => .proceed d idx
  else .proceed points []

/-- `client.SnapRadius`: rejects negative radii, otherwise stores. -/
def SnapRadius (c : ClientCfg) (radius : Int) : ClientCfg × Option String :=
  if radius < 0 then (c, some "radius must be >= 0")
  else ({ c with snapRadius := radius }, none)

/-- `client.MaxTableSize`: rejects sizes below 1, otherwise stores. -/
def MaxTableSize (c : ClientCfg) (size : Int) : ClientCfg × Option String :=
  if size < 1 then (c, some "max table size must be > 0")
  else ({ c with maxTableSize := size }, none)

/-- `client.ScaleFactor`: rejects non-positive factors, otherwise stores. -/
def ScaleFactor (c : ClientCfg) (factor : F) : ClientCfg × Option String :=
  if factor ≤ 0 then (c, some "scale factor must be > 0")
  else ({ c with scaleFactor := factor }, none)

/-- Modelled from the spec: the hashicorp golang-lru cache used by the
client (library code, not in `src/`) -- a fixed-capacity store with
least-recently-used eviction; entries are kept most-recent-first. -/
structure LruCache where
  capacity : Nat
  entries : List (String × String)
deriving DecidableEq

/-- `cache.Get`: a hit moves the entry to the most-recent position. -/
def lruGet (c : LruCache) (k : String) : Option String × LruCache :=
  match c.entries.find? (fun e => e.1 == k) with
  | none => (none, c)
  | some e =>
    (some e.2, { c with entries := e :: c.entries.eraseP (fun x => x.1 == k) })

/-- `cache.Add`: inserts (or refreshes) the key at the most-recent position
and evicts the least-recently-used entries beyond the capacity. -/
def lruAdd (c : LruCache) (k v : String) : LruCache :=
  { c with entries := ((k, v) :: c.entries.eraseP (fun e => e.1 == k)).take c.capacity }

/-- The outcome of one `client.get` call: the returned body or error, the
cache afterwards, and how many transport calls were performed (0 or 1). -/
structure GetOutcome where
  out : Except String String
  cache : LruCache
  calls : Nat

/-- The fetch part of `client.get`: URL parsing/resolution (`resolve`,
modelling `url.Parse` + `ResolveReference`), the transport round trip
(`transport`, modelling `httpClient.Do` + status handling + body read:
an `error` is a transport failure or a non-200 status turned into an error
by `handleErrorStatus`), and the store into the cache on success when
caching is enabled. -/
def clientFetch (useCache : Bool) (key : String)
    (resolve : String → Except String String)
    (transport : String → Except String String)
    (cache : LruCache) (uri : String) : GetOutcome :=
  match resolve uri with
  | .error e => ⟨.error e, cache, 0⟩
  | .ok u =>
    match transport u with
    | .error e => ⟨.error e, cache, 1⟩
    | .ok data => ⟨.ok data, if useCache then lruAdd cache key data else cache, 1⟩

/-- `client.get`: with caching enabled, derives the short key (`hash`
models `sha1.Sum`), consults the cache, and only on a miss performs the
fetch; with caching disabled it always fetches and never stores. -/
def clientGet (useCache : Bool) (hash : String → String)
    (resolve : String → Except String String)
    (transport : String → Except String String)
    (cache : LruCache) (uri : String) : GetOutcome :=
  if useCache then
    let key := hash uri
    match lruGet cache key with
    | (some b, c2) => ⟨.ok b, c2, 0⟩
    | (none, c2) => clientFetch true key resolve transport c2 uri
  else clientFetch false "" resolve transport cache uri

/-- `Step` of the OSRM route response (only the geometry is decoded). -/
structure Step where
  geometry : String := ""
deriving DecidableEq

/-- `Leg` of the OSRM route response. -/
structure Leg where
  steps : List Step := []
deriving DecidableEq

/-- `Route` of the OSRM route response. -/
structure Route where
  geometry : String := ""
  legs : List Leg := []
deriving DecidableEq

/-- `RouteResponse` of the OSRM server. -/
structure RouteResponse where
  code : String := ""
  routes : List Route := []
  message : String := ""
deriving DecidableEq

/-- Outcome of `client.Polyline`: an error return, a Go panic, or the full
route geometry together with the per-leg polylines. -/
inductive PolyResult where
  | err (msg : String)
  | panic
  | ok (full : String) (legs : List String)
deriving DecidableEq

/-- The inner step loop of `client.Polyline` for the leg at index `i`:
decodes every step geometry and appends the coordinates to
`decodedLegs[i]`; a decode error aborts the call, and indexing
`decodedLegs[i]` out of range is the Go panic. -/
def stitchSteps (decodeCoords : String → Except String (List (F × F)))
    (i : Nat) (steps : List Step) (acc : List (List (F × F))) :
    Except PolyResult (List (List (F × F))) :=
  match steps with
  | [] => .ok acc
  | s :: rest =>
    match decodeCoords s.geometry with
    | .error e => .error (.err e)
    | .ok coords =>
      match acc[i]? with
      | none => .error .panic
      | some cur => stitchSteps decodeCoords i rest (acc.set i (cur ++ coords))

/-- The outer leg loop of `client.Polyline` over the enumerated legs. -/
def stitchLegs (decodeCoords : String → Except String (List (F × F)))
    (legsIn : List (Nat × Leg)) (acc : List (List (F × F))) :
    Except PolyResult (List (List (F × F))) :=
  match legsIn with
  | [] => .ok acc
  | (i, leg) :: rest =>
    match stitchSteps decodeCoords i leg.steps acc with
    | .error r => .error r
    | .ok acc2 => stitchLegs decodeCoords rest acc2

/-- The full query path built by `client.Polyline`. -/
def polylinePath (points : List MPoint) : String :=
  getPath "route" (pointsParameter points) ++
    "?overview=simplified&steps=true&annotations=false&continue_straight=false"

/-- `client.Polyline`: empty-input error before any transport activity;
otherwise one route request, JSON decode (`decodeRoute` models
`json.Unmarshal`), the Ok-code check, `routeResp.Routes[0]` (a panic when
the routes list is empty), per-leg stitching of the decoded step
geometries (`decodeCoords`/`encodeCoords` model the go-polyline codec), and
finally the backend's overall geometry plus one re-encoded polyline per
`decodedLegs` slot (`len(points) - 1` of them). -/
def Polyline (transportGet : String → Except String String)
    (decodeRoute : String → Except String RouteResponse)
    (decodeCoords : String → Except String (List (F × F)))
    (encodeCoords : List (F × F) → String)
    (points : List MPoint) : PolyResult :=
  if points.length = 0 then .err "cannot create polyline for empty points"
  else
    match transportGet (polylinePath points) with
    | .error e => .err e
    | .ok body =>
      match decodeRoute body with
      | .error e => .err e
      | .ok routeResp =>
        if routeResp.code ≠ "Ok" then
          .err ("expected Ok response code; got " ++ routeResp.code ++
            " (" ++ routeResp.message ++ ")")
        else
          match routeResp.routes[0]? with
          | none => .panic
          | some route =>
            let decodedLegs := List.replicate (points.length - 1) ([] : List (F × F))
            match stitchLegs decodeCoords route.legs.enum decodedLegs with
            | .error r => r
            | .ok legsCoords => .ok route.geometry (legsCoords.map encodeCoords)

/-! ## Properties of `chunkBy` -/

theorem chunkBy_flatten (l : List α) (b : Nat) : (chunkBy l b).flatten = l := by
  rw [chunkBy]
  split
  · have ih := chunkBy_flatten (l.drop b) b
    simp [ih]
  · simp
termination_by l.length
decreasing_by simp only [List.length_drop]; omega

theorem chunkBy_chunk_le (l : List α) (b : Nat) (hb : 1 ≤ b) :
    ∀ ch ∈ chunkBy l b, ch.length ≤ b := by
  rw [chunkBy]
  split
  · intro ch hch
    rcases List.mem_cons.mp hch with rfl | hch
    · simp
    · exact chunkBy_chunk_le (l.drop b) b hb ch hch
  · rename_i h
    intro ch hch
    rcases List.mem_cons.mp hch with rfl | hch
    · omega
    · simp at hch
termination_by l.length
decreasing_by simp only [List.length_drop]; omega

theorem chunkBy_length (l : List α) (b : Nat) (hb : 1 ≤ b) (hl : l ≠ []) :
    (chunkBy l b).length = (l.length + b - 1) / b := by
  rw [chunkBy]
  split
  · rename_i h
    have hlen : 0 < l.length := by
      cases l with
      | nil => exact absurd rfl hl
      | cons a t => simp
    have hne : l.drop b ≠ [] := by
      intro hcon
      have := congrArg List.length hcon
      simp only [List.length_drop, List.length_nil] at this
      omega
    have ih := chunkBy_length (l.drop b) b hb hne
    simp only [List.length_cons, ih, List.length_drop]
    have e1 : l.length - b + b - 1 = l.length - 1 := by omega
    have e2 : l.length + b - 1 = (l.length - 1) + b := by omega
    rw [e1, e2, Nat.add_div_right _ (by omega)]
  · rename_i h
    have hlen : 0 < l.length := by
      cases l with
      | nil => exact absurd rfl hl
      | cons a t => simp
    have h1 : (l.length + b - 1) / b = 1 :=
      Nat.div_eq_of_lt_le (by omega) (by omega)
    simp [h1]
termination_by l.length
decreasing_by simp only [List.length_drop]; omega

/-! ## Properties of `tableRequests` -/

theorem enum_pair_keys {α β : Type _} (chunks : List α) (mk : Nat × α → Nat × α → β)
    (key : β → Nat × Nat) (hkey : ∀ p q, key (mk p q) = (p.1, q.1)) :
    (chunks.enum.flatMap (fun p1 => chunks.enum.map (fun p2 => mk p1 p2))).map key
      = (List.range chunks.length).flatMap
          (fun i => (List.range chunks.length).map (fun j => (i, j))) := by
  rw [List.map_flatMap]
  have hinner : ∀ p1 : Nat × α,
      (chunks.enum.map (fun p2 => mk p1 p2)).map key
        = (List.range chunks.length).map (fun j => (p1.1, j)) := by
    intro p1
    rw [List.map_map, ← List.enum_map_fst chunks, List.map_map]
    apply List.map_congr_left
    intro p2 _
    exact hkey p1 p2
  simp only [hinner]
  rw [← List.enum_map_fst chunks]
  exact (List.flatMap_map Prod.fst
    (fun i => (chunks.enum.map Prod.fst).map (fun j => (i, j))) chunks.enum).symm

theorem tableRequests_keys (c : ClientCfg) (cfg : TableCfg) (points : List MPoint) :
    (tableRequests c cfg points).map (fun r => (r.row, r.column)) =
      (List.range (chunkBy (convertPoints points) c.maxTableSize.toNat).length).flatMap
        (fun i => (List.range (chunkBy (convertPoints points) c.maxTableSize.toNat).length).map
          (fun j => (i, j))) := by
  exact enum_pair_keys (chunkBy (convertPoints points) c.maxTableSize.toNat) _ _
    (fun p q => rfl)

theorem tableRequests_length (c : ClientCfg) (cfg : TableCfg) (points : List MPoint) :
    (tableRequests c cfg points).length =
      (chunkBy (convertPoints points) c.maxTableSize.toNat).length ^ 2 := by
  have h := congrArg List.length (tableRequests_keys c cfg points)
  rw [List.length_map] at h
  rw [h, List.length_flatMap]
  simp only [Function.comp_def, List.length_map, List.length_range]
  rw [List.map_const', List.sum_replicate, List.length_range, smul_eq_mul, sq]

/-- CLAIM C5: for a non-empty point list of length `n` and max table size
`b ≥ 1`, `tableRequests` plans exactly `(ceil (n / b))^2` requests -- one
per ordered pair of blocks, in row-major order -- where the blocks are the
`chunkBy` chunks of the converted point list: each has length at most `b`
and they concatenate, in order, to the converted input. -/
theorem claimC5_tableRequests_count (c : ClientCfg) (cfg : TableCfg) (points : List MPoint)
    (hne : points ≠ []) (hb : 1 ≤ c.maxTableSize) :
    (tableRequests c cfg points).length =
      ((points.length + c.maxTableSize.toNat - 1) / c.maxTableSize.toNat) ^ 2 ∧
    (tableRequests c cfg points).map (fun r => (r.row, r.column)) =
      (List.range ((points.length + c.maxTableSize.toNat - 1) / c.maxTableSize.toNat)).flatMap
        (fun i => (List.range ((points.length + c.maxTableSize.toNat - 1) / c.maxTableSize.toNat)).map
          (fun j => (i, j))) ∧
    (∀ ch ∈ chunkBy (convertPoints points) c.maxTableSize.toNat,
      ch.length ≤ c.maxTableSize.toNat) ∧
    (chunkBy (convertPoints points) c.maxTableSize.toNat).flatten
      = convertPoints points := by
  have hbn : 1 ≤ c.maxTableSize.toNat := by omega
  have hlen : (convertPoints points).length = points.length := by
    simp [convertPoints, handleUnroutablePoints]
  have hne2 : convertPoints points ≠ [] := by
    intro hcon
    have := congrArg List.length hcon
    simp only [hlen, List.length_nil] at this
    exact hne (List.length_eq_zero.mp this)
  have hchl := chunkBy_length (convertPoints points) c.maxTableSize.toNat hbn hne2
  rw [hlen] at hchl
  refine ⟨?_, ?_, chunkBy_chunk_le _ _ hbn, chunkBy_flatten _ _⟩
  · rw [tableRequests_length, hchl]
  · rw [tableRequests_keys, hchl]

/-- CLAIM C5 witness: 3 points with max table size 2 give exactly
`(ceil (3 / 2))^2 = 4` requests. -/
theorem claimC5_witness :
    (tableRequests { maxTableSize := 2 } {} [[1, 2], [3, 4], [5, 6]]).length = 4 := by
  have h := claimC5_tableRequests_count { maxTableSize := 2 } {} [[1, 2], [3, 4], [5, 6]]
    (by decide) (by decide)
  simpa using h.1

/-! ## The configuration setters -/

/-- CLAIM C9: `SnapRadius` errors exactly on negative radii, `ScaleFactor`
exactly on non-positive factors, `MaxTableSize` exactly on sizes below 1;
an error leaves the stored configuration unchanged and a success stores the
new value (and touches nothing else). -/
theorem claimC9_option_validation (c : ClientCfg) (r s : Int) (f : F) :
    ((SnapRadius c r).2.isSome ↔ r < 0) ∧
    (r < 0 → (SnapRadius c r).1 = c) ∧
    (0 ≤ r → (SnapRadius c r).1 = { c with snapRadius := r } ∧ (SnapRadius c r).2 = none) ∧
    ((ScaleFactor c f).2.isSome ↔ f ≤ 0) ∧
    (f ≤ 0 → (ScaleFactor c f).1 = c) ∧
    (0 < f → (ScaleFactor c f).1 = { c with scaleFactor := f } ∧ (ScaleFactor c f).2 = none) ∧
    ((MaxTableSize c s).2.isSome ↔ s < 1) ∧
    (s < 1 → (MaxTableSize c s).1 = c) ∧
    (1 ≤ s → (MaxTableSize c s).1 = { c with maxTableSize := s } ∧ (MaxTableSize c s).2 = none) := by
  unfold SnapRadius ScaleFactor MaxTableSize
  refine ⟨?_, ?_, ?_, ?_, ?_, ?_, ?_, ?_, ?_⟩
  · split <;> simp_all
  · intro h; simp [h]
  · intro h; rw [if_neg (by omega)]; exact ⟨rfl, rfl⟩
  · split <;> simp_all
  · intro h; simp [h]
  · intro h; rw [if_neg (by exact not_le.mpr h)]; exact ⟨rfl, rfl⟩
  · split <;> simp_all
  · intro h; simp [h]
  · intro h; rw [if_neg (by omega)]; exact ⟨rfl, rfl⟩

/-- CLAIM C9 witness: concrete error and success cases for the three
setters. -/
theorem claimC9_witness :
    (SnapRadius {} (-1)).1 = {} ∧ (SnapRadius {} 7).1 = { snapRadius := 7 } ∧
    (ScaleFactor {} (-1)).1 = {} ∧ (ScaleFactor {} 2).1 = { scaleFactor := 2 } ∧
    (MaxTableSize {} 0).1 = {} ∧ (MaxTableSize {} 5).1 = { maxTableSize := 5 } := by
  obtain ⟨-, hbad1, -, -, hbad2, -, -, hbad3, -⟩ :=
    claimC9_option_validation {} (-1) 0 (-1)
  obtain ⟨-, -, hgood1, -, -, hgood2, -, -, hgood3⟩ :=
    claimC9_option_validation {} 7 5 2
  exact ⟨hbad1 (by decide), (hgood1 (by decide)).1, hbad2 (by decide),
    (hgood2 (by decide)).1, hbad3 (by decide), (hgood3 (by decide)).1⟩

/-! ## Error aggregation in `client.Table` -/

/-- CLAIM C1 (code bug): on the batch whose first collected error is a
generic (non-user-input) error and whose second is a user-input `Error`,
the aggregation loop of `client.Table` -- which type-asserts `errs[0]`
instead of `err` at every iteration -- classifies the aggregate as a
non-user-input error, although the batch contains a user-input error.  The
claim (and the spec) require the aggregate to be user-input whenever any
constituent is. -/
theorem claimC1_aggregate_misclassification :
    aggregateTableErrors [.generic "boom", .osrm "bad input" true]
      = some (.osrm "\n\nboom\nbad input" false) ∧
    ([GoError.generic "boom", GoError.osrm "bad input" true].any GoError.isOsrmInput) = true := by
  decide

/-! ## `client.Polyline` -/

/-- CLAIM C2 (code bug): a successfully decoded response with code `"Ok"`
and an empty `routes` list makes `client.Polyline` panic (the unchecked
`routeResp.Routes[0]`) instead of returning an error. -/
theorem claimC2_polyline_missing_route_panic :
    Polyline (fun _ => .ok "body")
      (fun _ => .ok { code := "Ok", routes := [] })
      (fun _ => .ok []) (fun _ => "") [[1, 2], [3, 4]] = .panic := by
  decide

/-! ## Unroutable-point substitution -/

/-- CLAIM C7 counterexample: a point equal to the origin sentinel `(0,0)`
has length 2 and is therefore NOT replaced by the out-of-service sentinel
coordinate -- it is sent as the real coordinate `0.000000,0.000000`,
contradicting the claim that every absent-or-zero point is substituted. -/
theorem claimC7_counterexample :
    pointsParameters [[0, 0]] = ["0.000000,0.000000"] ∧
    fmtMPoint unroutablePoint = "-143.292892,37.683603" ∧
    ("0.000000,0.000000" : String) ≠ "-143.292892,37.683603" := by
  decide

/-- CLAIM C7 as amended: the coordinate list has exactly one entry per
input point, and a point is replaced by the out-of-service sentinel exactly
when it is not a pair (length different from 2); a pair -- including the
origin `(0,0)` -- is sent as its real coordinates. -/
theorem claimC7_amended_sentinel_substitution (points : List MPoint) :
    (pointsParameters points).length = points.length ∧
    ∀ i, i < points.length →
      (pointsParameters points).get? i =
        some (fmtMPoint (if (points.getD i []).length = 2 then points.getD i []
          else unroutablePoint)) := by
  constructor
  · simp [pointsParameters, handleUnroutablePoints]
  · intro i hi
    simp only [pointsParameters, handleUnroutablePoints, List.map_map, List.get?_eq_getElem?,
      List.getElem?_map]
    rw [List.getElem?_eq_getElem hi]
    simp only [Option.map_some', Function.comp_apply]
    rw [List.getD_eq_getElem _ _ hi]

/-- CLAIM C7 witness: a zero pair is sent as its real coordinates and an
absent point is replaced by the sentinel. -/
theorem claimC7_witness :
    (pointsParameters [[0, 0], []]).length = 2 ∧
    (pointsParameters [[0, 0], []]).get? 0 = some (fmtMPoint [0, 0]) ∧
    (pointsParameters [[0, 0], []]).get? 1 = some (fmtMPoint unroutablePoint) := by
  have h := claimC7_amended_sentinel_substitution [[0, 0], []]
  refine ⟨by simpa using h.1, ?_, ?_⟩
  · have h0 := h.2 0 (by decide)
    simpa using h0
  · have h1 := h.2 1 (by decide)
    simpa using h1

/-! ## The cache layer -/

theorem clientGet_miss (hash : String → String)
    (resolve transport : String → Except String String)
    (cap : Nat) (uri u body : String) (hres : resolve uri = .ok u)
    (htr : transport u = .ok body) (hcap : 1 ≤ cap) :
    clientGet true hash resolve transport ⟨cap, []⟩ uri
      = ⟨.ok body, ⟨cap, [(hash uri, body)]⟩, 1⟩ := by
  have htake : ([(hash uri, body)] : List (String × String)).take cap = [(hash uri, body)] :=
    List.take_of_length_le (by simpa using hcap)
  simp [clientGet, clientFetch, lruGet, lruAdd, hres, htr, htake]

theorem clientGet_hit (hash : String → String)
    (resolve transport : String → Except String String)
    (cap : Nat) (uri body : String) :
    clientGet true hash resolve transport ⟨cap, [(hash uri, body)]⟩ uri
      = ⟨.ok body, ⟨cap, [(hash uri, body)]⟩, 0⟩ := by
  simp [clientGet, lruGet]

theorem clientGet_nocache (hash : String → String)
    (resolve transport : String → Except String String)
    (cache : LruCache) (uri u body : String) (hres : resolve uri = .ok u)
    (htr : transport u = .ok body) :
    clientGet false hash resolve transport cache uri = ⟨.ok body, cache, 1⟩ := by
  simp [clientGet, clientFetch, hres, htr]

/-- CLAIM C6: three `Get`s of the same URI on a caching-enabled client with
non-zero capacity perform exactly one transport call (the second and third
are answered from the cache with the identical bytes); with caching
disabled, three `Get`s perform three transport calls and store nothing. -/
theorem claimC6_cache_idempotence (hash : String → String)
    (resolve transport : String → Except String String)
    (uri u body : String) (cap : Nat)
    (hres : resolve uri = .ok u) (htr : transport u = .ok body) (hcap : 1 ≤ cap) :
    (let c0 : LruCache := ⟨cap, []⟩
     let g1 := clientGet true hash resolve transport c0 uri
     let g2 := clientGet true hash resolve transport g1.cache uri
     let g3 := clientGet true hash resolve transport g2.cache uri
     g1.calls = 1 ∧ g2.calls = 0 ∧ g3.calls = 0 ∧
     g1.out = .ok body ∧ g2.out = g1.out ∧ g3.out = g1.out) ∧
    (let c0 : LruCache := ⟨cap, []⟩
     let d1 := clientGet false hash resolve transport c0 uri
     let d2 := clientGet false hash resolve transport d1.cache uri
     let d3 := clientGet false hash resolve transport d2.cache uri
     d1.calls = 1 ∧ d2.calls = 1 ∧ d3.calls = 1 ∧
     d1.cache = c0 ∧ d2.cache = c0 ∧ d3.cache = c0 ∧
     d1.out = .ok body ∧ d2.out = .ok body ∧ d3.out = .ok body) := by
  have h1 := clientGet_miss hash resolve transport cap uri u body hres htr hcap
  have h2 := clientGet_hit hash resolve transport cap uri body
  have h3 := clientGet_nocache hash resolve transport ⟨cap, []⟩ uri u body hres htr
  constructor
  · simp [h1, h2]
  · simp [h3]

/-- CLAIM C6 witness: a concrete transport and URI. -/
theorem claimC6_witness :
    (let c0 : LruCache := ⟨1, []⟩
     let g1 := clientGet true (fun s => s) (fun s => .ok s) (fun _ => .ok "B") c0 "u"
     let g2 := clientGet true (fun s => s) (fun s => .ok s) (fun _ => .ok "B") g1.cache "u"
     let g3 := clientGet true (fun s => s) (fun s => .ok s) (fun _ => .ok "B") g2.cache "u"
     g1.calls = 1 ∧ g2.calls = 0 ∧ g3.calls = 0 ∧
     g1.out = .ok "B" ∧ g2.out = g1.out ∧ g3.out = g1.out) ∧
    (let c0 : LruCache := ⟨1, []⟩
     let d1 := clientGet false (fun s => s) (fun s => .ok s) (fun _ => .ok "B") c0 "u"
     let d2 := clientGet false (fun s => s) (fun s => .ok s) (fun _ => .ok "B") d1.cache "u"
     let d3 := clientGet false (fun s => s) (fun s => .ok s) (fun _ => .ok "B") d2.cache "u"
     d1.calls = 1 ∧ d2.calls = 1 ∧ d3.calls = 1 ∧
     d1.cache = c0 ∧ d2.cache = c0 ∧ d3.cache = c0 ∧
     d1.out = .ok "B" ∧ d2.out = .ok "B" ∧ d3.out = .ok "B") :=
  claimC6_cache_idempotence (fun s => s) (fun s => .ok s) (fun _ => .ok "B")
    "u" "u" "B" 1 rfl rfl (by omega)

/-! ## Order-independence of `mergeRequests` -/

instance : IsTotal TableResponse respLE :=
  ⟨fun a b => by unfold respLE; omega⟩

instance : IsTrans TableResponse respLE :=
  ⟨fun a b c hab hbc => by unfold respLE at *; omega⟩

instance : IsAntisymm TableResponse respLT :=
  ⟨fun a b h1 h2 => by exfalso; unfold respLT at h1 h2; omega⟩

theorem respLE_and_ne_imp_lt {a b : TableResponse}
    (h : respLE a b) (hne : (a.row, a.column) ≠ (b.row, b.column)) : respLT a b := by
  have hne2 : ¬(a.row = b.row ∧ a.column = b.column) := by
    simpa [Prod.ext_iff] using hne
  unfold respLE at h
  unfold respLT
  omega

theorem keyNe_symmetric :
    Symmetric (fun a b : TableResponse => (a.row, a.column) ≠ (b.row, b.column)) :=
  fun _ _ h hc => h hc.symm

theorem sortResponses_sorted_lt (l : List TableResponse)
    (hd : l.Pairwise (fun a b => (a.row, a.column) ≠ (b.row, b.column))) :
    (sortResponses l).Sorted respLT := by
  have hs : (sortResponses l).Sorted respLE := List.sorted_insertionSort respLE l
  have hp : (sortResponses l).Perm l := List.perm_insertionSort respLE l
  have hd2 : (sortResponses l).Pairwise
      (fun a b => (a.row, a.column) ≠ (b.row, b.column)) :=
    (hp.pairwise_iff (fun h => keyNe_symmetric h)).mpr hd
  exact (hs.and hd2).imp (fun h => respLE_and_ne_imp_lt h.1 h.2)

theorem sortResponses_eq_of_perm (l₁ l₂ : List TableResponse) (hperm : l₁.Perm l₂)
    (hd : l₁.Pairwise (fun a b => (a.row, a.column) ≠ (b.row, b.column))) :
    sortResponses l₁ = sortResponses l₂ := by
  have hd2 : l₂.Pairwise (fun a b => (a.row, a.column) ≠ (b.row, b.column)) :=
    (hperm.pairwise_iff (fun h => keyNe_symmetric h)).mp hd
  have hp : (sortResponses l₁).Perm (sortResponses l₂) :=
    (List.perm_insertionSort respLE l₁).trans
      (hperm.trans (List.perm_insertionSort respLE l₂).symm)
  exact List.eq_of_perm_of_sorted hp
    (sortResponses_sorted_lt l₁ hd) (sortResponses_sorted_lt l₂ hd2)

/-- CLAIM C3: on a non-empty batch of block responses with
pairwise-distinct (row, column) keys, `mergeRequests` returns the same
stitched result for every permutation of the arrival order: the stitched
matrices depend only on the set of responses. -/
theorem claimC3_mergeRequests_perm_invariant (l₁ l₂ : List TableResponse)
    (hperm : l₁.Perm l₂) (_hne : l₁ ≠ [])
    (hd : l₁.Pairwise (fun a b => (a.row, a.column) ≠ (b.row, b.column))) :
    mergeRequests l₁ = mergeRequests l₂ := by
  unfold mergeRequests
  rw [sortResponses_eq_of_perm l₁ l₂ hperm hd]

/-- CLAIM C3 witness: the two arrival orders of a concrete 1x2 block pair
stitch to the identical matrices. -/
theorem claimC3_witness :
    mergeRequests [⟨"Ok", "", [[2]], [[2]], 0, 1⟩, ⟨"Ok", "", [[1]], [[1]], 0, 0⟩]
      = mergeRequests [⟨"Ok", "", [[1]], [[1]], 0, 0⟩, ⟨"Ok", "", [[2]], [[2]], 0, 1⟩] ∧
    mergeRequests [⟨"Ok", "", [[2]], [[2]], 0, 1⟩, ⟨"Ok", "", [[1]], [[1]], 0, 0⟩]
      = some ⟨"Ok", "", [[1, 2]], [[1, 2]], 0, 0⟩ :=
  ⟨claimC3_mergeRequests_perm_invariant _ _ (List.Perm.swap _ _ _) (by decide) (by decide),
   by decide⟩

/-! ## Properties of `deflateZeroes` -/

theorem deflateZeroes_fold_aux (points : List MPoint) (i : Nat) (acc : List MPoint × List Nat) :
    (points.enumFrom i).foldlM (fun acc p =>
      match isDroppedPoint p.2 with
      | none => none
      | some true => some acc
      | some false => some (acc.1 ++ [p.2], acc.2 ++ [p.1])) acc
    = (deflateRec i points).map (fun r => (acc.1 ++ r.1, acc.2 ++ r.2)) := by
  induction points generalizing i acc with
  | nil => simp [deflateRec]
  | cons p rest ih =>
    rw [List.enumFrom_cons, List.foldlM_cons]
    cases hdp : isDroppedPoint p with
    | none => simp [deflateRec, hdp]
    | some b =>
      cases b with
      | true =>
        simp only [deflateRec, hdp]
        simpa using ih (i + 1) acc
      | false =>
        simp only [deflateRec, hdp]
        have hrec := ih (i + 1) (acc.1 ++ [p], acc.2 ++ [i])
        cases hdr : deflateRec (i + 1) rest with
        | none => simpa [hdr] using hrec
        | some r =>
          obtain ⟨d, idx⟩ := r
          rw [hdr] at hrec
          simpa [hdr, List.append_assoc] using hrec

theorem deflateZeroes_eq_rec (points : List MPoint) :
    deflateZeroes points = deflateRec 0 points := by
  have h := deflateZeroes_fold_aux points 0 ([], [])
  unfold deflateZeroes
  rw [show points.enum = points.enumFrom 0 from rfl] at *
  rw [h]
  cases deflateRec 0 points <;> simp

theorem isDroppedPoint_isSome (p : MPoint) (hp : p.length = 0 ∨ 2 ≤ p.length) :
    ∃ b, isDroppedPoint p = some b := by
  unfold isDroppedPoint
  rcases hp with h0 | h2
  · simp [h0]
  · have hne : ¬ p.length = 0 := by omega
    rw [if_neg hne]
    obtain ⟨a, ha⟩ : ∃ a, p[0]? = some a := by
      cases hg : p[0]? with
      | none => rw [List.getElem?_eq_none_iff] at hg; omega
      | some a => exact ⟨a, rfl⟩
    obtain ⟨b, hb⟩ : ∃ b, p[1]? = some b := by
      cases hg : p[1]? with
      | none => rw [List.getElem?_eq_none_iff] at hg; omega
      | some b => exact ⟨b, rfl⟩
    rw [ha, hb]
    by_cases hz : a = 0 <;> simp [hz]

theorem deflateRec_total (points : List MPoint) (i : Nat)
    (hw : ∀ p ∈ points, p.length = 0 ∨ 2 ≤ p.length) :
    ∃ r, deflateRec i points = some r := by
  induction points generalizing i with
  | nil => exact ⟨([], []), rfl⟩
  | cons p rest ih =>
    obtain ⟨b, hb⟩ := isDroppedPoint_isSome p (hw p (by simp))
    obtain ⟨r, hr⟩ := ih (i + 1) (fun q hq => hw q (by simp [hq]))
    obtain ⟨d, idx⟩ := r
    cases b with
    | true => exact ⟨(d, idx), by simp [deflateRec, hb, hr]⟩
    | false => exact ⟨(p :: d, i :: idx), by simp [deflateRec, hb, hr]⟩

theorem deflateRec_spec (points : List MPoint) (i : Nat) (d : List MPoint) (idx : List Nat)
    (h : deflateRec i points = some (d, idx)) :
    idx.Pairwise (· < ·) ∧
    (∀ k ∈ idx, i ≤ k) ∧
    (∀ k ∈ idx, k < i + points.length) ∧
    List.Forall₂ (fun k p => i ≤ k ∧ points[k - i]? = some p) idx d ∧
    (∀ k, k ∈ idx ↔ ∃ p, points[k - i]? = some p ∧
        isDroppedPoint p = some false ∧ i ≤ k) := by
  induction points generalizing i d idx with
  | nil =>
    simp only [deflateRec, Option.some.injEq, Prod.mk.injEq] at h
    obtain ⟨rfl, rfl⟩ := h
    exact ⟨by simp, by simp, by simp, by simp, by intro k; simp⟩
  | cons p rest ih =>
    simp only [deflateRec] at h
    cases hdp : isDroppedPoint p with
    | none => rw [hdp] at h; exact absurd h (by simp)
    | some b =>
      rw [hdp] at h
      cases b with
      | true =>
        obtain ⟨hA, hB, hC, hD, hE⟩ := ih (i + 1) d idx h
        refine ⟨hA, ?_, ?_, ?_, ?_⟩
        · intro k hk; have := hB k hk; omega
        · intro k hk; have := hC k hk; simp only [List.length_cons]; omega
        · refine hD.imp ?_
          intro k q hkq
          obtain ⟨hk1, hk2⟩ := hkq
          refine ⟨by omega, ?_⟩
          have hki : k - i = (k - (i + 1)) + 1 := by omega
          rw [hki, List.getElem?_cons_succ]
          exact hk2
        · intro k
          rw [hE k]
          constructor
          · rintro ⟨q, hq1, hq2, hq3⟩
            refine ⟨q, ?_, hq2, by omega⟩
            have hki : k - i = (k - (i + 1)) + 1 := by omega
            rw [hki, List.getElem?_cons_succ]
            exact hq1
          · rintro ⟨q, hq1, hq2, hq3⟩
            rcases Nat.eq_or_lt_of_le hq3 with rfl | hki
            · simp only [Nat.sub_self, List.getElem?_cons_zero, Option.some.injEq] at hq1
              subst hq1
              rw [hdp] at hq2
              exact absurd hq2 (by simp)
            · have hkk : k - i = (k - (i + 1)) + 1 := by omega
              rw [hkk, List.getElem?_cons_succ] at hq1
              exact ⟨q, hq1, hq2, by omega⟩
      | false =>
        cases hdr : deflateRec (i + 1) rest with
        | none => rw [hdr] at h; exact absurd h (by simp)
        | some r =>
          obtain ⟨d2, idx2⟩ := r
          rw [hdr] at h
          simp only [Option.some.injEq, Prod.mk.injEq] at h
          obtain ⟨h1, h2⟩ := h
          subst h1
          subst h2
          obtain ⟨hA, hB, hC, hD, hE⟩ := ih (i + 1) d2 idx2 hdr
          refine ⟨?_, ?_, ?_, ?_, ?_⟩
          · refine List.Pairwise.cons ?_ hA
            intro k hk
            have := hB k hk
            omega
          · intro k hk
            rcases List.mem_cons.mp hk with rfl | hk2
            · omega
            · have := hB k hk2; omega
          · intro k hk
            simp only [List.length_cons]
            rcases List.mem_cons.mp hk with rfl | hk2
            · omega
            · have := hC k hk2; omega
          · refine List.Forall₂.cons ⟨Nat.le_refl i, by simp⟩ ?_
            refine hD.imp ?_
            intro k q hkq
            obtain ⟨hk1, hk2⟩ := hkq
            refine ⟨by omega, ?_⟩
            have hki : k - i = (k - (i + 1)) + 1 := by omega
            rw [hki, List.getElem?_cons_succ]
            exact hk2
          · intro k
            constructor
            · intro hk
              rcases List.mem_cons.mp hk with rfl | hk2
              · exact ⟨p, by simp, hdp, Nat.le_refl _⟩
              · obtain ⟨q, hq1, hq2, hq3⟩ := (hE k).mp hk2
                refine ⟨q, ?_, hq2, by omega⟩
                have hki : k - i = (k - (i + 1)) + 1 := by omega
                rw [hki, List.getElem?_cons_succ]
                exact hq1
            · rintro ⟨q, hq1, hq2, hq3⟩
              rcases Nat.eq_or_lt_of_le hq3 with rfl | hki
              · exact List.mem_cons_self _ _
              · have hkk : k - i = (k - (i + 1)) + 1 := by omega
                rw [hkk, List.getElem?_cons_succ] at hq1
                exact List.mem_cons_of_mem _ ((hE k).mpr ⟨q, hq1, hq2, by omega⟩)

/-- CLAIM C10: `deflateZeroes` is total (no out-of-bounds access) on point
lists whose points have length 0 or at least 2, and then returns a strictly
increasing index list in bijection with the surviving points, preserving
relative order (`d` is exactly the sublist of `points` selected, in order,
by `idx`, and `idx` holds exactly the indices of the surviving points);
but on the input `[[0]]` -- a point of length exactly 1 with zero first
coordinate -- the zero-point test reads index 1 out of range, so
`deflateZeroes` panics and `Table` with ignore-empty enabled panics with
it. -/
theorem claimC10_deflate_totality_and_panic :
    (∀ points : List MPoint, (∀ p ∈ points, p.length = 0 ∨ 2 ≤ p.length) →
      ∃ d idx, deflateZeroes points = some (d, idx) ∧
        idx.Pairwise (· < ·) ∧
        List.Forall₂ (fun k p => points[k]? = some p) idx d ∧
        (∀ k, k ∈ idx ↔ ∃ p, points[k]? = some p ∧ isDroppedPoint p = some false)) ∧
    deflateZeroes [[0]] = none ∧
    tableCallPrep true [[0]] = TablePrep.panic := by
  refine ⟨?_, by decide, by decide⟩
  intro points hw
  obtain ⟨r, hr⟩ := deflateRec_total points 0 hw
  obtain ⟨d, idx⟩ := r
  obtain ⟨hA, hB, hC, hD, hE⟩ := deflateRec_spec points 0 d idx hr
  refine ⟨d, idx, ?_, hA, ?_, ?_⟩
  · rw [deflateZeroes_eq_rec]; exact hr
  · refine hD.imp ?_
    intro k q hkq
    simpa using hkq.2
  · intro k
    rw [hE k]
    simp

/-- CLAIM C10 witness: a mixed list of valid pairs and a zero pair. -/
theorem claimC10_witness :
    ∃ d idx, deflateZeroes [[1, 2], [0, 0], [3, 4]] = some (d, idx) ∧
      idx.Pairwise (· < ·) ∧
      List.Forall₂ (fun k p => [[(1 : F), 2], [0, 0], [3, 4]][k]? = some p) idx d ∧
      (∀ k, k ∈ idx ↔ ∃ p, [[(1 : F), 2], [0, 0], [3, 4]][k]? = some p ∧
        isDroppedPoint p = some false) :=
  claimC10_deflate_totality_and_panic.1 [[1, 2], [0, 0], [3, 4]] (by decide)

/-! ## Properties of `inflateZeroes` -/

theorem getElem?_isSome_of_lt {α : Type _} (l : List α) (i : Nat) (hi : i < l.length) :
    ∃ a, l[i]? = some a := by
  cases hg : l[i]? with
  | none => rw [List.getElem?_eq_none_iff] at hg; omega
  | some a => exact ⟨a, rfl⟩

theorem matCell_eq (m : Mat) (r c : Nat) :
    matCell m r c = ((m[r]?).getD []).getD c 0 := by
  unfold matCell
  rw [List.getD_eq_getElem?_getD m r []]

theorem matCell_of_getElem? {m : Mat} {i : Nat} {rowv : List F}
    (hrow : m[i]? = some rowv) (j : Nat) : matCell m i j = rowv.getD j 0 := by
  rw [matCell_eq, hrow, Option.getD_some]

theorem matGet?_eq (m : Mat) (n i j : Nat) (hm : IsSquare m n) (hi : i < n) (hj : j < n) :
    matGet? m i j = some (matCell m i j) := by
  obtain ⟨hlen, hrows⟩ := hm
  obtain ⟨rowv, hrow⟩ := getElem?_isSome_of_lt m i (by omega)
  have hrl : rowv.length = n := hrows rowv (List.getElem?_mem hrow)
  obtain ⟨v, hv⟩ := getElem?_isSome_of_lt rowv j (by omega)
  unfold matGet?
  simp only [hrow]
  rw [hv, matCell_of_getElem? hrow j, List.getD_eq_getElem?_getD, hv, Option.getD_some]

theorem matSet?_spec (m : Mat) (n r c : Nat) (v : F) (hm : IsSquare m n)
    (hr : r < n) (hc : c < n) :
    ∃ m2, matSet? m r c v = some m2 ∧ IsSquare m2 n ∧
      matCell m2 r c = v ∧
      (∀ r' c', (r' ≠ r ∨ c' ≠ c) → matCell m2 r' c' = matCell m r' c') := by
  obtain ⟨hlen, hrows⟩ := hm
  obtain ⟨rowv, hrow⟩ := getElem?_isSome_of_lt m r (by omega)
  have hrl : rowv.length = n := hrows rowv (List.getElem?_mem hrow)
  refine ⟨m.set r (rowv.set c v), ?_, ⟨by simp [hlen], ?_⟩, ?_, ?_⟩
  · unfold matSet?
    simp only [hrow]
    rw [if_pos (show c < rowv.length by omega)]
  · intro rw2 hrw2
    rcases List.mem_or_eq_of_mem_set hrw2 with hmem | rfl
    · exact hrows rw2 hmem
    · simp [hrl]
  · have hset : (m.set r (rowv.set c v))[r]? = some (rowv.set c v) :=
      List.getElem?_set_self (by omega)
    rw [matCell_of_getElem? hset c, List.getD_eq_getElem?_getD,
      List.getElem?_set_self (by omega), Option.getD_some]
  · intro r' c' hne
    by_cases hrr : r' = r
    · subst hrr
      rcases hne with hne | hne
      · exact absurd rfl hne
      · have hset : (m.set r' (rowv.set c v))[r']? = some (rowv.set c v) :=
          List.getElem?_set_self (by omega)
        rw [matCell_of_getElem? hset c', matCell_of_getElem? hrow c',
          List.getD_eq_getElem?_getD, List.getD_eq_getElem?_getD,
          List.getElem?_set_ne (by omega)]
    · have hset : (m.set r (rowv.set c v))[r']? = m[r']? :=
        List.getElem?_set_ne (by omega)
      rw [matCell_eq, matCell_eq, hset]

theorem inflateRow_spec (matrix : Mat) (m n : Nat) (hmat : IsSquare matrix m)
    (i oi : Nat) (hi : i < m) (hoi : oi < n)
    (qs : List (Nat × Nat))
    (hq : ∀ q ∈ qs, q.1 < m ∧ q.2 < n)
    (hqd : qs.Pairwise (fun a b => a.2 ≠ b.2))
    (acc : Mat) (hacc : IsSquare acc n) :
    ∃ acc2, inflateRow matrix i oi qs acc = some acc2 ∧ IsSquare acc2 n ∧
      (∀ q ∈ qs, matCell acc2 oi q.2 = matCell matrix i q.1) ∧
      (∀ r c, (r ≠ oi ∨ (∀ q ∈ qs, q.2 ≠ c)) → matCell acc2 r c = matCell acc r c) := by
  induction qs generalizing acc with
  | nil => exact ⟨acc, rfl, hacc, by simp, fun r c _ => rfl⟩
  | cons q0 qs2 ih =>
    obtain ⟨hq1, hq2⟩ := hq q0 (by simp)
    have hget := matGet?_eq matrix m i q0.1 hmat hi hq1
    obtain ⟨acc1, hset, hsq1, hcell1, hoff1⟩ :=
      matSet?_spec acc n oi q0.2 (matCell matrix i q0.1) hacc hoi hq2
    obtain ⟨acc2, hfold2, hsq2, hcell2, hoff2⟩ := ih
      (fun q hq3 => hq q (by simp [hq3]))
      (List.pairwise_cons.mp hqd).2 acc1 hsq1
    have hstep : inflateRow matrix i oi (q0 :: qs2) acc = inflateRow matrix i oi qs2 acc1 := by
      unfold inflateRow
      rw [List.foldlM_cons, hget]
      simp [hset]
    refine ⟨acc2, by rw [hstep]; exact hfold2, hsq2, ?_, ?_⟩
    · intro q hq3
      rcases List.mem_cons.mp hq3 with rfl | hq4
      · rw [hoff2 oi q.2 (Or.inr (fun q2 hq5 => ((List.pairwise_cons.mp hqd).1 q2 hq5).symm))]
        exact hcell1
      · exact hcell2 q hq4
    · intro r c hne
      rcases hne with hne | hne
      · rw [hoff2 r c (Or.inl hne)]
        exact hoff1 r c (Or.inl hne)
      · rw [hoff2 r c (Or.inr (fun q2 hq5 => hne q2 (by simp [hq5])))]
        exact hoff1 r c (Or.inr (Ne.symm (hne q0 (by simp))))

theorem inflateFold_spec (matrix : Mat) (m n : Nat) (hmat : IsSquare matrix m)
    (qsAll : List (Nat × Nat)) (hq : ∀ q ∈ qsAll, q.1 < m ∧ q.2 < n)
    (hqd : qsAll.Pairwise (fun a b => a.2 ≠ b.2))
    (ps : List (Nat × Nat)) (hp : ∀ p ∈ ps, p.1 < m ∧ p.2 < n)
    (hpd : ps.Pairwise (fun a b => a.2 ≠ b.2))
    (acc : Mat) (hacc : IsSquare acc n) :
    ∃ acc2, ps.foldlM (fun a p => inflateRow matrix p.1 p.2 qsAll a) acc = some acc2 ∧
      IsSquare acc2 n ∧
      (∀ p ∈ ps, ∀ q ∈ qsAll, matCell acc2 p.2 q.2 = matCell matrix p.1 q.1) ∧
      (∀ r c, ((∀ p ∈ ps, p.2 ≠ r) ∨ (∀ q ∈ qsAll, q.2 ≠ c)) →
        matCell acc2 r c = matCell acc r c) := by
  induction ps generalizing acc with
  | nil => exact ⟨acc, rfl, hacc, by simp, fun r c _ => rfl⟩
  | cons p0 ps2 ih =>
    obtain ⟨hp1, hp2⟩ := hp p0 (by simp)
    obtain ⟨acc1, hrow1, hsq1, hcell1, hoff1⟩ :=
      inflateRow_spec matrix m n hmat p0.1 p0.2 hp1 hp2 qsAll hq hqd acc hacc
    obtain ⟨acc2, hfold2, hsq2, hcell2, hoff2⟩ := ih
      (fun p hp3 => hp p (by simp [hp3]))
      (List.pairwise_cons.mp hpd).2 acc1 hsq1
    have hstep : (p0 :: ps2).foldlM (fun a p => inflateRow matrix p.1 p.2 qsAll a) acc
        = ps2.foldlM (fun a p => inflateRow matrix p.1 p.2 qsAll a) acc1 := by
      rw [List.foldlM_cons, hrow1]
      rfl
    refine ⟨acc2, by rw [hstep]; exact hfold2, hsq2, ?_, ?_⟩
    · intro p hp3 q hq3
      rcases List.mem_cons.mp hp3 with rfl | hp4
      · rw [hoff2 p.2 q.2
          (Or.inl (fun p2 hp5 => Ne.symm ((List.pairwise_cons.mp hpd).1 p2 hp5)))]
        exact hcell1 q hq3
      · exact hcell2 p hp4 q hq3
    · intro r c hne
      rcases hne with hne | hne
      · rw [hoff2 r c (Or.inl (fun p2 hp5 => hne p2 (by simp [hp5])))]
        exact hoff1 r c (Or.inl (Ne.symm (hne p0 (by simp))))
      · rw [hoff2 r c (Or.inr hne)]
        exact hoff1 r c (Or.inr hne)

theorem matCell_replicate_zero (len r c : Nat) :
    matCell (List.replicate len (List.replicate len (0 : F))) r c = 0 := by
  rw [matCell_eq]
  rcases Nat.lt_or_ge r len with h | h
  · rw [List.getElem?_replicate_of_lt h, Option.getD_some, List.getD_eq_getElem?_getD]
    rcases Nat.lt_or_ge c len with h2 | h2
    · rw [List.getElem?_replicate_of_lt h2]
      rfl
    · rw [List.getElem?_eq_none_iff.mpr (by simpa using h2)]
      rfl
  · rw [List.getElem?_eq_none_iff.mpr (by simpa using h)]
    rfl

theorem getD_mem_enum {l : List Nat} {i : Nat} (hi : i < l.length) :
    (i, l.getD i 0) ∈ l.enum := by
  rw [List.mem_enum_iff_getElem?]
  obtain ⟨a, ha⟩ := getElem?_isSome_of_lt l i hi
  simp only [List.getD_eq_getElem?_getD, ha]
  rfl

/-- CLAIM C4: for a point list whose deflation succeeds with survivors `d`
and index map `idx`, and any square matrix of the deflated size,
`inflateZeroes matrix idx (length points)` yields an
`n × n` matrix (`n` the original point count) whose cell
`(idx[i], idx[j])` holds `matrix[i][j]` for every pair of surviving
indices, and whose every other cell -- any row or column of a removed
point -- is zero. -/
theorem claimC4_inflate_deflate_roundtrip (points : List MPoint) (matrix : Mat)
    (d : List MPoint) (idx : List Nat)
    (hdef : deflateZeroes points = some (d, idx))
    (hsq : IsSquare matrix idx.length) :
    ∃ inflated, inflateZeroes matrix idx points.length = some inflated ∧
      IsSquare inflated points.length ∧
      (∀ i j, i < idx.length → j < idx.length →
        matCell inflated (idx.getD i 0) (idx.getD j 0) = matCell matrix i j) ∧
      (∀ r c, (r ∉ idx ∨ c ∉ idx) → matCell inflated r c = 0) := by
  rw [deflateZeroes_eq_rec] at hdef
  obtain ⟨hA, hB, hC, hD, hE⟩ := deflateRec_spec points 0 d idx hdef
  have hbound : ∀ k ∈ idx, k < points.length := fun k hk => by
    have := hC k hk
    omega
  have hsnd : idx.enum.map Prod.snd = idx := by
    rw [List.enum_eq_zip_range]
    exact List.map_snd_zip _ _ (by simp)
  have henumq : ∀ q ∈ idx.enum, q.1 < idx.length ∧ q.2 < points.length := by
    intro q hq
    rw [List.mem_enum_iff_getElem?] at hq
    constructor
    · by_contra hge
      push_neg at hge
      rw [List.getElem?_eq_none_iff.mpr hge] at hq
      exact Option.noConfusion hq
    · exact hbound q.2 (List.getElem?_mem hq)
  have hpd : idx.enum.Pairwise (fun a b => a.2 ≠ b.2) := by
    have h1 : (idx.enum.map Prod.snd).Pairwise (fun a b : Nat => a < b) := by
      rw [hsnd]
      exact hA
    exact (List.pairwise_map.mp h1).imp (fun h => Nat.ne_of_lt h)
  have hbase : IsSquare (List.replicate points.length
      (List.replicate points.length (0 : F))) points.length := by
    refine ⟨by simp, ?_⟩
    intro r hr
    rw [List.eq_of_mem_replicate hr]
    simp
  obtain ⟨inflated, hfold, hsq2, hcopy, hoff⟩ := inflateFold_spec matrix idx.length
    points.length hsq idx.enum henumq hpd idx.enum henumq hpd _ hbase
  refine ⟨inflated, hfold, hsq2, ?_, ?_⟩
  · intro i j hi hj
    exact hcopy (i, idx.getD i 0) (getD_mem_enum hi) (j, idx.getD j 0) (getD_mem_enum hj)
  · intro r c hne
    have hcell : matCell inflated r c = matCell (List.replicate points.length
        (List.replicate points.length (0 : F))) r c := by
      refine hoff r c ?_
      rcases hne with hne | hne
      · refine Or.inl (fun q hq => ?_)
        intro hc
        rw [List.mem_enum_iff_getElem?] at hq
        exact hne (hc ▸ List.getElem?_mem hq)
      · refine Or.inr (fun q hq => ?_)
        intro hc
        rw [List.mem_enum_iff_getElem?] at hq
        exact hne (hc ▸ List.getElem?_mem hq)
    rw [hcell, matCell_replicate_zero]

/-- CLAIM C4 witness: three points with the middle one removed; the 2x2
matrix is copied to the corner cells and row/column 1 stays zero. -/
theorem claimC4_witness :
    ∃ inflated, inflateZeroes [[5, 6], [7, 8]] [0, 2] 3 = some inflated ∧
      IsSquare inflated 3 ∧
      (∀ i j, i < 2 → j < 2 →
        matCell inflated ([0, 2].getD i 0) ([0, 2].getD j 0) = matCell [[5, 6], [7, 8]] i j) ∧
      (∀ r c, (r ∉ [0, 2] ∨ c ∉ [0, 2]) → matCell inflated r c = 0) :=
  claimC4_inflate_deflate_roundtrip [[1, 2], [0, 0], [3, 4]] [[5, 6], [7, 8]]
    [[1, 2], [3, 4]] [0, 2] (by decide) (by decide)

/-! ## `client.Polyline`: success path -/

theorem stitchSteps_ok (decodeCoords : String → Except String (List (F × F)))
    (i : Nat) (steps : List Step) (acc : List (List (F × F))) (hi : i < acc.length)
    (hdec : ∀ s ∈ steps, ∃ cs, decodeCoords s.geometry = .ok cs) :
    ∃ acc2, stitchSteps decodeCoords i steps acc = .ok acc2 ∧ acc2.length = acc.length := by
  induction steps generalizing acc with
  | nil => exact ⟨acc, rfl, rfl⟩
  | cons s rest ih =>
    obtain ⟨cs, hcs⟩ := hdec s (by simp)
    obtain ⟨cur, hcur⟩ := getElem?_isSome_of_lt acc i hi
    obtain ⟨acc2, h2, hlen⟩ := ih (acc.set i (cur ++ cs)) (by simpa using hi)
      (fun s2 hs2 => hdec s2 (by simp [hs2]))
    refine ⟨acc2, ?_, by simpa using hlen⟩
    unfold stitchSteps
    simp only [hcs, hcur]
    exact h2

theorem stitchLegs_ok (decodeCoords : String → Except String (List (F × F)))
    (legsIn : List (Nat × Leg)) (acc : List (List (F × F)))
    (hidx : ∀ q ∈ legsIn, q.1 < acc.length)
    (hdec : ∀ q ∈ legsIn, ∀ s ∈ q.2.steps, ∃ cs, decodeCoords s.geometry = .ok cs) :
    ∃ acc2, stitchLegs decodeCoords legsIn acc = .ok acc2 ∧ acc2.length = acc.length := by
  induction legsIn generalizing acc with
  | nil => exact ⟨acc, rfl, rfl⟩
  | cons q rest ih =>
    obtain ⟨i, leg⟩ := q
    obtain ⟨acc1, h1, hlen1⟩ := stitchSteps_ok decodeCoords i leg.steps acc
      (hidx (i, leg) (by simp)) (hdec (i, leg) (by simp))
    obtain ⟨acc2, h2, hlen2⟩ := ih acc1
      (fun q2 hq2 => by rw [hlen1]; exact hidx q2 (by simp [hq2]))
      (fun q2 hq2 => hdec q2 (by simp [hq2]))
    refine ⟨acc2, ?_, hlen2.trans hlen1⟩
    unfold stitchLegs
    simp only [h1]
    exact h2

/-- CLAIM C8: `Polyline` on an empty point list fails with the
empty-input error without consulting the transport (the result is this
error for EVERY transport); on `n ≥ 2` points with a well-formed `"Ok"`
response it returns the backend's overall route polyline unchanged together
with exactly `n - 1` per-leg polylines. -/
theorem claimC8_polyline_legs :
    (∀ (transportGet : String → Except String String)
       (decodeRoute : String → Except String RouteResponse)
       (decodeCoords : String → Except String (List (F × F)))
       (encodeCoords : List (F × F) → String),
      Polyline transportGet decodeRoute decodeCoords encodeCoords []
        = .err "cannot create polyline for empty points") ∧
    (∀ (transportGet : String → Except String String)
       (decodeRoute : String → Except String RouteResponse)
       (decodeCoords : String → Except String (List (F × F)))
       (encodeCoords : List (F × F) → String)
       (points : List MPoint) (body : String) (resp : RouteResponse) (route : Route),
      2 ≤ points.length →
      transportGet (polylinePath points) = .ok body →
      decodeRoute body = .ok resp →
      resp.code = "Ok" →
      resp.routes[0]? = some route →
      route.legs.length = points.length - 1 →
      (∀ leg ∈ route.legs, ∀ s ∈ leg.steps, ∃ cs, decodeCoords s.geometry = .ok cs) →
      ∃ legs, Polyline transportGet decodeRoute decodeCoords encodeCoords points
          = .ok route.geometry legs ∧ legs.length = points.length - 1) := by
  constructor
  · intro tg dr dc ec
    rfl
  · intro tg dr dc ec points body resp route hlen htr hdec hcode hroute hlegs hsteps
    obtain ⟨acc2, hst, hlen2⟩ := stitchLegs_ok dc route.legs.enum
      (List.replicate (points.length - 1) [])
      (fun q hq => by
        rw [List.length_replicate, ← hlegs]
        rw [List.mem_enum_iff_getElem?] at hq
        by_contra hge
        push_neg at hge
        rw [List.getElem?_eq_none_iff.mpr hge] at hq
        exact Option.noConfusion hq)
      (fun q hq => by
        rw [List.mem_enum_iff_getElem?] at hq
        exact hsteps q.2 (List.getElem?_mem hq))
    refine ⟨acc2.map ec, ?_, by simp [hlen2]⟩
    unfold Polyline
    rw [if_neg (by omega)]
    simp only [htr, hdec, hcode, ne_eq, not_true_eq_false, if_false, hroute, hst]

/-- CLAIM C8 witness: 0 points fail with the empty-input error; 2 points
with a well-formed one-leg response give exactly 1 leg polyline and the
backend's geometry. -/
theorem claimC8_witness :
    Polyline (fun _ => .ok "B") (fun _ => .ok {}) (fun _ => .ok []) (fun _ => "E") []
        = .err "cannot create polyline for empty points" ∧
    ∃ legs, Polyline (fun _ => .ok "B")
        (fun _ => .ok ⟨"Ok", [⟨"geo", [⟨[⟨"g1"⟩]⟩]⟩], ""⟩)
        (fun _ => .ok []) (fun _ => "E") [[1, 2], [3, 4]]
          = .ok "geo" legs ∧ legs.length = 1 := by
  constructor
  · exact claimC8_polyline_legs.1 _ _ _ _
  · exact claimC8_polyline_legs.2 (fun _ => .ok "B") _ _ _ [[1, 2], [3, 4]] "B"
      ⟨"Ok", [⟨"geo", [⟨[⟨"g1"⟩]⟩]⟩], ""⟩ ⟨"geo", [⟨[⟨"g1"⟩]⟩]⟩
      (by decide) rfl rfl rfl rfl rfl
      (fun leg _ => fun s _ => ⟨[], rfl⟩)

end Osrm
